import Mathlib

/-!
# photo-display: navigation state and directory scanner

A shallow embedding of `src/photoApplication.hpp` (class `Application`) and of
`src/main.cpp`.

* C++ `int` is a 32-bit two's-complement integer, embedded as an `Int` in
  `[INT_MIN, INT_MAX]`; `int` arithmetic that leaves the range is undefined
  behaviour and is embedded as the fault `signedOverflow`.
* `std::size_t` is a 64-bit unsigned integer, embedded as a `Nat` reduced
  modulo `2 ^ 64` after every operation. The size of a vector or string is
  its length.
* Undefined behaviour and uncaught exceptions are results `Except.error`.
* `std::string` is embedded as `String`, positions count characters. The
  only character searched for is `.`, a single byte that occurs in no
  multi-byte sequence, so the substrings taken are the same as with bytes.
* Pointers returned by SDL are embedded as `Option Nat` (`none` is `nullptr`).
* The external services (SDL, SDL_image, the file system, standard input) are
  explicit arguments giving the outcome of each call.
* Console output (`std::print`) is not modelled, except that the `int`
  arithmetic in its arguments is evaluated.
-/

namespace PhotoDisplay

/-! ## Machine integers -/

/-- Undefined or trapping behaviour of the C++ program. -/
inductive Fault
  | divisionByZero
  | indexOutOfBounds
  | signedOverflow
  | outOfRange
  deriving DecidableEq, Repr

/-- Largest value of a C++ `int`. -/
def INT_MAX : Int := 2147483647

/-- Smallest value of a C++ `int`. -/
def INT_MIN : Int := -2147483648

/-- Number of values of `std::size_t`, that is `2 ^ 64`. -/
def SIZE_MODULUS : Nat := 18446744073709551616

/-- The operator `a + b` on two `int` operands; overflow is undefined. -/
def intAdd (a b : Int) : Except Fault Int :=
  if INT_MIN ≤ a + b ∧ a + b ≤ INT_MAX then .ok (a + b) else .error .signedOverflow

/-- Conversion of an `int` to `std::size_t` (value modulo `2 ^ 64`). -/
def toSizeT (x : Int) : Nat := (x % (SIZE_MODULUS : Int)).toNat

/-- The operator `a + b` on two `std::size_t` operands (wraps around). -/
def sizeAdd (a b : Nat) : Nat := (a + b) % SIZE_MODULUS

/-- The operator `a % n` on two `std::size_t` operands; `n = 0` is undefined. -/
def sizeMod (a n : Nat) : Except Fault Nat :=
  if n = 0 then .error .divisionByZero else .ok (a % n)

/-- Conversion of a `std::size_t` to `int` (value modulo `2 ^ 32`, read as
two's complement). -/
def toInt (x : Nat) : Int :=
  if x % 4294967296 < 2147483648 then ((x % 4294967296 : Nat) : Int)
  else ((x % 4294967296 : Nat) : Int) - 4294967296

/-! ## Application state -/

/-- Calls made to the external libraries, in the order they are made. -/
inductive Call
  | SDL_Init
  | SDL_CreateWindow
  | SDL_CreateRenderer
  | IMG_Init
  | SDL_FreeSurface (surface : Nat)
  | SDL_DestroyTexture (texture : Nat)
  | SDL_DestroyRenderer (renderer : Nat)
  | SDL_DestroyWindow (window : Nat)
  | IMG_Load (file : String)
  | SDL_CreateTextureFromSurface (surface : Nat)
  | IMG_Quit
  | SDL_Quit
  deriving DecidableEq, Repr

/-- The data members of `class Application`, followed by the ghost field
`calls` that records the library calls made so far (oldest first). -/
structure Application where
  window : Option Nat
  surface : Option Nat
  texture : Option Nat
  renderer : Option Nat
  photoFiles : List String
  currentIndex : Int
  hasPhotos : Bool
  calls : List Call
  deriving DecidableEq, Repr

/-- The constructor `Application()`. -/
def Application.new : Application :=
  { window := none, surface := none, texture := none, renderer := none,
    photoFiles := [], currentIndex := 0, hasPhotos := false, calls := [] }

/-- Outcome of the image library for one call of `loadCurrentPhoto`:
what `IMG_Load` returns for a file name and what
`SDL_CreateTextureFromSurface` returns for a renderer and a surface. -/
structure ImageService where
  IMG_Load : String → Option Nat
  SDL_CreateTextureFromSurface : Option Nat → Nat → Option Nat

/-- Records one library call in the ghost field. -/
def Application.record (s : Application) (c : Call) : Application :=
  { s with calls := s.calls ++ [c] }

/-- The statement `if (surface) { SDL_FreeSurface(surface); surface = nullptr; }`. -/
def freeSurface (s : Application) : Application :=
  match s.surface with
  | some p => { s.record (.SDL_FreeSurface p) with surface := none }
  | none => s

/-- The statement `if (texture) { SDL_DestroyTexture(texture); texture = nullptr; }`. -/
def destroyTexture (s : Application) : Application :=
  match s.texture with
  | some t => { s.record (.SDL_DestroyTexture t) with texture := none }
  | none => s

/-- The method `Application::loadCurrentPhoto`. -/
def loadCurrentPhoto (s : Application) (io : ImageService) : Except Fault Application :=
  if !s.hasPhotos || s.photoFiles.isEmpty then .ok s
  else
    let s1 := destroyTexture (freeSurface s)
    match s1.photoFiles[toSizeT s1.currentIndex]? with
    | none => .error .indexOutOfBounds
    | some filename =>
      let s2 := { s1.record (.IMG_Load filename) with surface := io.IMG_Load filename }
      match s2.surface with
      | some p =>
        .ok { s2.record (.SDL_CreateTextureFromSurface p) with
              texture := io.SDL_CreateTextureFromSurface s2.renderer p }
      | none => .ok s2

/-- The method `Application::nextPhoto`; the last `intAdd` is the argument
`currentIndex + 1` of the final `std::print`. -/
def nextPhoto (s : Application) (io : ImageService) : Except Fault Application :=
  if !s.hasPhotos || s.photoFiles.isEmpty then .ok s
  else do
    let a ← intAdd s.currentIndex 1
    let r ← sizeMod (toSizeT a) s.photoFiles.length
    let s1 ← loadCurrentPhoto { s with currentIndex := toInt r } io
    let _ ← intAdd s1.currentIndex 1
    pure s1

/-- The method `Application::prevPhoto`; the last `intAdd` is the argument
`currentIndex + 1` of the final `std::print`. -/
def prevPhoto (s : Application) (io : ImageService) : Except Fault Application :=
  if !s.hasPhotos || s.photoFiles.isEmpty then .ok s
  else do
    let a ← intAdd s.currentIndex (-1)
    let r ← sizeMod (sizeAdd (toSizeT a) s.photoFiles.length) s.photoFiles.length
    let s1 ← loadCurrentPhoto { s with currentIndex := toInt r } io
    let _ ← intAdd s1.currentIndex 1
    pure s1

/-! ## Directory scanner -/

/-- The constant `std::string::npos`, the largest `std::size_t`. -/
def npos : Nat := SIZE_MODULUS - 1

/-- The call `s.find_last_of(".")` with a one-character set: the position of
the last occurrence of `c` in `s`, or `npos` when `c` does not occur. -/
def find_last_of (s : List Char) (c : Char) : Nat :=
  if c ∈ s then s.length - 1 - s.reverse.indexOf c else npos

/-- The call `s.substr(pos)`: the characters from `pos` to the end; it throws
`std::out_of_range` when `pos > s.size()`. -/
def substr (s : List Char) (pos : Nat) : Except Fault (List Char) :=
  if pos > s.length then .error .outOfRange else .ok (s.drop pos)

/-- The function `::tolower` in the "C" locale: `A`..`Z` go to `a`..`z`,
every other character is unchanged. -/
def tolower (c : Char) : Char := c.toLower

/-- The method `Application::isImageFile`. -/
def isImageFile (filename : String) : Except Fault Bool := do
  let ext ← substr filename.toList (sizeAdd (find_last_of filename.toList '.') 1)
  let ext := ext.map tolower
  pure (ext == "jpg".toList || ext == "jpeg".toList || ext == "png".toList)

/-- One `directory_entry` of the traversal: the result of
`entry.path().string()` and of `entry.is_regular_file()`. -/
structure DirectoryEntry where
  path : String
  is_regular_file : Bool
  deriving DecidableEq, Repr

/-- What `std::filesystem::recursive_directory_iterator(directory)` delivers:
the entries produced, in order, and whether the traversal then throws
`filesystem_error` (on construction, on an increment or on a status query)
instead of reaching the end. -/
structure Traversal where
  entries : List DirectoryEntry
  throws : Bool
  deriving DecidableEq, Repr

/-- The file system: the traversal obtained for a directory name. -/
abbrev FileSystem := String → Traversal

/-- The body of the range-`for` of `loadImagesFromDirectory`, run over the
entries delivered; `files` is `photoFiles`. -/
def scanEntries (files : List String) : List DirectoryEntry → Except Fault (List String)
  | [] => .ok files
  | entry :: rest =>
    if entry.is_regular_file then do
      let image ← isImageFile entry.path
      scanEntries (if image then files ++ [entry.path] else files) rest
    else scanEntries files rest

/-- The method `Application::loadImagesFromDirectory`; the result pairs the
returned `bool` with the state. -/
def loadImagesFromDirectory (s : Application) (directory : String) (fs : FileSystem)
    (io : ImageService) : Except Fault (Bool × Application) := do
  let s0 := { s with photoFiles := [], currentIndex := 0, hasPhotos := false }
  let files ← scanEntries s0.photoFiles (fs directory).entries
  let s1 := { s0 with photoFiles := files }
  if (fs directory).throws then pure (false, s1)
  else if !s1.photoFiles.isEmpty then do
    let s2 ← loadCurrentPhoto { s1 with hasPhotos := true } io
    pure (true, s2)
  else pure (false, s1)

/-! ## Rendering -/

/-- What one call of `render` draws: the texture handed to `SDL_RenderCopy`
by `renderPhoto` (`none` when the grey message box is drawn instead) and
whether `renderUI` draws the previous/next buttons. -/
structure Frame where
  photo : Option Nat
  messageBox : Bool
  navButtons : Bool
  deriving DecidableEq, Repr

/-- The method `Application::render` (with `renderPhoto` and `renderUI`). -/
def render (s : Application) : Frame :=
  let buttons := s.hasPhotos && !s.photoFiles.isEmpty
  if s.hasPhotos && s.texture.isSome then
    { photo := s.texture, messageBox := false, navButtons := buttons }
  else
    { photo := none, messageBox := true, navButtons := buttons }

/-! ## Start-up, event loop and shutdown -/

/-- Outcome of the four library calls of `Application::init`. -/
structure Platform where
  SDL_Init : Int
  SDL_CreateWindow : Option Nat
  SDL_CreateRenderer : Option Nat
  IMG_Init : Int

/-- The method `Application::init`; the result pairs the returned `bool` with
the state. The test `imgFlags == 0` guards a message only, so the value of
`IMG_Init` does not appear below. -/
def init (s : Application) (sdl : Platform) : Bool × Application :=
  let s0 := s.record .SDL_Init
  if sdl.SDL_Init < 0 then (false, s0)
  else
    let s1 := { s0.record .SDL_CreateWindow with window := sdl.SDL_CreateWindow }
    match s1.window with
    | none => (false, s1.record .SDL_Quit)
    | some w =>
      let s2 := { s1.record .SDL_CreateRenderer with renderer := sdl.SDL_CreateRenderer }
      match s2.renderer with
      | none => (false, (s2.record (.SDL_DestroyWindow w)).record .SDL_Quit)
      | some _ => (true, s2.record .IMG_Init)

/-- The method `Application::destroy`. -/
def destroy (s : Application) : Application :=
  let s1 := match s.surface with
    | some p => s.record (.SDL_FreeSurface p)
    | none => s
  let s2 := match s1.texture with
    | some t => s1.record (.SDL_DestroyTexture t)
    | none => s1
  let s3 := match s2.renderer with
    | some r => s2.record (.SDL_DestroyRenderer r)
    | none => s2
  let s4 := match s3.window with
    | some w => s3.record (.SDL_DestroyWindow w)
    | none => s3
  (s4.record .IMG_Quit).record .SDL_Quit

/-- One event returned by `SDL_PollEvent`, with the outcome of the external
services it makes the program consult: for the key `l` the line read from
standard input, the file system and the image library; for the navigation
keys the image library. -/
inductive Event
  | SDL_QUIT
  | SDLK_ESCAPE
  | SDLK_l (folderPath : String) (fs : FileSystem) (io : ImageService)
  | SDLK_RIGHT (io : ImageService)
  | SDLK_SPACE (io : ImageService)
  | SDLK_LEFT (io : ImageService)
  | SDLK_r
  | other

/-- The `switch` of `main` for one event; the `Bool` is `running`. -/
def handleEvent (st : Application × Bool) : Event → Except Fault (Application × Bool)
  | .SDL_QUIT => .ok (st.1, false)
  | .SDLK_ESCAPE => .ok (st.1, false)
  | .SDLK_l folderPath fs io =>
    if !folderPath.isEmpty then do
      let r ← loadImagesFromDirectory st.1 folderPath fs io
      pure (r.2, st.2)
    else .ok st
  | .SDLK_RIGHT io => do
    let s ← nextPhoto st.1 io
    pure (s, st.2)
  | .SDLK_SPACE io => do
    let s ← nextPhoto st.1 io
    pure (s, st.2)
  | .SDLK_LEFT io => do
    let s ← prevPhoto st.1 io
    pure (s, st.2)
  | .SDLK_r => .ok st
  | .other => .ok st

/-- The inner loop `while (SDL_PollEvent(&event))` over the events pending in
one iteration of the outer loop. -/
def pollEvents (st : Application × Bool) : List Event → Except Fault (Application × Bool)
  | [] => .ok st
  | e :: rest => do
    let st1 ← handleEvent st e
    pollEvents st1 rest

/-- Result of a run of `main`: the exit status (`none` when the events given
run out while `running` is still true), whether the event loop was entered,
the frames rendered and the final state. -/
structure MainResult where
  exitStatus : Option Int
  enteredLoop : Bool
  frames : List Frame
  app : Application
  deriving DecidableEq, Repr

/-- The loop `while (running)` of `main` followed by the shutdown; `pending`
lists, for each iteration, the events `SDL_PollEvent` delivers in it. -/
def eventLoop (app : Application) (frames : List Frame) :
    List (List Event) → Except Fault MainResult
  | [] => .ok { exitStatus := none, enteredLoop := true, frames := frames, app := app }
  | batch :: pending => do
    let st ← pollEvents (app, true) batch
    let frames1 := frames ++ [render st.1]
    if st.2 then eventLoop st.1 frames1 pending
    else pure { exitStatus := some 0, enteredLoop := true, frames := frames1,
                app := destroy st.1 }

/-- The function `main`. -/
def main (sdl : Platform) (pending : List (List Event)) : Except Fault MainResult :=
  let r := init Application.new sdl
  if !r.1 then
    .ok { exitStatus := some 1, enteredLoop := false, frames := [], app := r.2 }
  else eventLoop r.2 [] pending

/-! ## Sequences of calls -/

/-- Calls `nextPhoto` once for every element of `ios`, which lists the outcome
of the image library for each call in turn. -/
def nextPhotoTimes (s : Application) : List ImageService → Except Fault Application
  | [] => .ok s
  | io :: ios => do
    let s1 ← nextPhoto s io
    nextPhotoTimes s1 ios

/-- One call of a state-changing public method, with the outcome of the
external services during the call. -/
inductive Op
  | load (directory : String) (fs : FileSystem) (io : ImageService)
  | next (io : ImageService)
  | prev (io : ImageService)

/-- Performs one call. -/
def step (s : Application) : Op → Except Fault Application
  | .load directory fs io => do
    let r ← loadImagesFromDirectory s directory fs io
    pure r.2
  | .next io => nextPhoto s io
  | .prev io => prevPhoto s io

/-- Performs a sequence of calls, first to last. -/
def run (s : Application) : List Op → Except Fault Application
  | [] => .ok s
  | op :: ops => do
    let s1 ← step s op
    run s1 ops

/-! ## The scanner in the words of the specification -/

/-- The file name of a path: the text after its last `/`. -/
def specFileName (path : List Char) : List Char :=
  (path.reverse.takeWhile (fun c => c != '/')).reverse

/-- The extension of a path: the text after the last `.` of its file name,
`none` when the file name has no `.`. -/
def specExtension (path : String) : Option (List Char) :=
  if '.' ∈ specFileName path.toList then
    some ((specFileName path.toList).reverse.takeWhile (fun c => c != '.')).reverse
  else none

/-- A path is an image when it has an extension that, lowercased, is `jpg`,
`jpeg` or `png`. -/
def specIsImage (path : String) : Bool :=
  match specExtension path with
  | none => false
  | some ext =>
    ext.map tolower == "jpg".toList || ext.map tolower == "jpeg".toList ||
      ext.map tolower == "png".toList

/-- The scan result: the paths of the regular files that are images, in
traversal order. -/
def specScan (entries : List DirectoryEntry) : List String :=
  (entries.filter (fun e => e.is_regular_file && specIsImage e.path)).map (fun e => e.path)

/-! ## Example data -/

/-- An image library in which every decode and texture creation succeeds. -/
def decodeOk : ImageService := ⟨fun _ => some 7, fun _ _ => some 9⟩

/-- An image library in which every decode fails. -/
def decodeFails : ImageService := ⟨fun _ => none, fun _ _ => some 9⟩

/-- A running application showing the last of three photos. -/
def browsing : Application :=
  { window := some 1, surface := some 7, texture := some 9, renderer := some 2,
    photoFiles := ["d/a.png", "d/c.JPG", "d/e.jpeg"], currentIndex := 2,
    hasPhotos := true, calls := [] }

/-- A directory holding `a.png`, `b.txt` and `c.JPG`. -/
def photoDirectory : FileSystem :=
  fun _ => ⟨[⟨"d/a.png", true⟩, ⟨"d/b.txt", true⟩, ⟨"d/c.JPG", true⟩], false⟩

/-- A directory holding a text file and a subdirectory, no image. -/
def imagelessDirectory : FileSystem :=
  fun _ => ⟨[⟨"d/notes.txt", true⟩, ⟨"d/sub.png", false⟩], false⟩

/-- A directory whose traversal delivers `a.png` and then throws. -/
def unreadableDirectory : FileSystem :=
  fun _ => ⟨[⟨"d/a.png", true⟩], true⟩

/-- A platform on which SDL starts but `IMG_Init` returns 0. -/
def noImageSupport : Platform :=
  { SDL_Init := 0, SDL_CreateWindow := some 1, SDL_CreateRenderer := some 2, IMG_Init := 0 }

/-! ## Machine arithmetic of the cursor -/

theorem toSizeT_natCast (k : Nat) (h : k < SIZE_MODULUS) : toSizeT (k : Int) = k := by
  unfold toSizeT
  have : ((k : Int) % (SIZE_MODULUS : Int)) = (k : Int) := by
    apply Int.emod_eq_of_lt (by omega)
    exact_mod_cast h
  rw [this]; simp

theorem toInt_small (r : Nat) (h : r < 2147483648) : toInt r = (r : Int) := by
  unfold toInt
  have : r % 4294967296 = r := Nat.mod_eq_of_lt (by omega)
  rw [this]; simp [h]

theorem loadCurrentPhoto_spec (s : Application) (io : ImageService) (k : Nat)
    (hp : s.hasPhotos = true) (hi : s.currentIndex = (k : Int))
    (hlt : k < s.photoFiles.length) (hk : k < SIZE_MODULUS) :
    ∃ s1, loadCurrentPhoto s io = .ok s1 ∧ s1.photoFiles = s.photoFiles ∧
      s1.currentIndex = s.currentIndex ∧ s1.hasPhotos = true ∧
      s1.window = s.window ∧ s1.renderer = s.renderer ∧
      s1.surface = (s.photoFiles[k]?).bind io.IMG_Load ∧
      s1.texture = ((s.photoFiles[k]?).bind io.IMG_Load).bind
        (io.SDL_CreateTextureFromSurface s.renderer) := by
  obtain ⟨w, sf, tx, r, pf, ci, hpz, calls⟩ := s
  simp only at hp hi hlt
  subst hp hi
  have hne : pf.isEmpty = false := by
    cases pf with
    | nil => simp at hlt
    | cons a l => rfl
  have hget : pf[k]? = some (pf.get ⟨k, hlt⟩) := by
    simp [List.getElem?_eq_getElem hlt]
  unfold loadCurrentPhoto
  cases sf <;> cases tx <;>
    simp [destroyTexture, freeSurface, Application.record, hne, toSizeT_natCast k hk, hget] <;>
    cases hload : io.IMG_Load pf[k] <;> simp [hload]

theorem nextIndex_eq (i n : Nat) (hlt : i < n) (hn : n ≤ 2147483647) :
    ∃ a r, intAdd (i : Int) 1 = .ok a ∧ sizeMod (toSizeT a) n = .ok r ∧
      toInt r = (((i + 1) % n : Nat) : Int) ∧ (i + 1) % n < n := by
  have h1 : intAdd (i : Int) 1 = .ok ((i + 1 : Nat) : Int) := by
    unfold intAdd INT_MIN INT_MAX
    rw [if_pos (by omega)]; simp
  have h2 : toSizeT ((i + 1 : Nat) : Int) = i + 1 :=
    toSizeT_natCast _ (by unfold SIZE_MODULUS; omega)
  have h3 : sizeMod (i + 1) n = .ok ((i + 1) % n) := by
    unfold sizeMod; rw [if_neg (by omega)]
  have h4 : (i + 1) % n < n := Nat.mod_lt _ (by omega)
  exact ⟨_, _, h1, by rw [h2]; exact h3, toInt_small _ (by omega), h4⟩

theorem prevIndex_eq (i n : Nat) (hlt : i < n) (hn : n ≤ 2147483647) :
    ∃ a r, intAdd (i : Int) (-1) = .ok a ∧ sizeMod (sizeAdd (toSizeT a) n) n = .ok r ∧
      toInt r = (((i + n - 1) % n : Nat) : Int) ∧ (i + n - 1) % n < n := by
  have h1 : intAdd (i : Int) (-1) = .ok ((i : Int) + -1) := by
    unfold intAdd INT_MIN INT_MAX
    rw [if_pos (by omega)]
  have h2 : sizeAdd (toSizeT ((i : Int) + -1)) n = i + n - 1 := by
    unfold sizeAdd
    rcases Nat.eq_zero_or_pos i with h0 | hpos
    · subst h0
      have : toSizeT (((0 : Nat) : Int) + -1) = SIZE_MODULUS - 1 := by
        unfold toSizeT SIZE_MODULUS; decide
      rw [this]; unfold SIZE_MODULUS; omega
    · have : ((i : Int) + -1) = ((i - 1 : Nat) : Int) := by omega
      rw [this, toSizeT_natCast _ (by unfold SIZE_MODULUS; omega)]
      unfold SIZE_MODULUS; omega
  have h3 : sizeMod (i + n - 1) n = .ok ((i + n - 1) % n) := by
    unfold sizeMod; rw [if_neg (by omega)]
  have h4 : (i + n - 1) % n < n := Nat.mod_lt _ (by omega)
  exact ⟨_, _, h1, by rw [h2]; exact h3, toInt_small _ (by omega), h4⟩

theorem isEmpty_false_of_lt {α : Type} (l : List α) (k : Nat) (h : k < l.length) :
    l.isEmpty = false := by
  cases l with
  | nil => simp at h
  | cons a t => rfl

theorem nextPhoto_spec (s : Application) (io : ImageService) (i : Nat)
    (hp : s.hasPhotos = true) (hi : s.currentIndex = (i : Int))
    (hlt : i < s.photoFiles.length) (hn : s.photoFiles.length ≤ 2147483647) :
    ∃ s1, nextPhoto s io = .ok s1 ∧ s1.photoFiles = s.photoFiles ∧
      s1.currentIndex = (((i + 1) % s.photoFiles.length : Nat) : Int) ∧
      s1.hasPhotos = true ∧ s1.window = s.window ∧ s1.renderer = s.renderer ∧
      s1.surface = (s.photoFiles[(i + 1) % s.photoFiles.length]?).bind io.IMG_Load ∧
      s1.texture = ((s.photoFiles[(i + 1) % s.photoFiles.length]?).bind io.IMG_Load).bind
        (io.SDL_CreateTextureFromSurface s.renderer) := by
  obtain ⟨a, r, ha, hr, hr2, hr3⟩ := nextIndex_eq i s.photoFiles.length hlt hn
  have hne := isEmpty_false_of_lt _ _ hlt
  obtain ⟨s1, h1, hrest⟩ := loadCurrentPhoto_spec
    { s with currentIndex := (((i + 1) % s.photoFiles.length : Nat) : Int) } io
    ((i + 1) % s.photoFiles.length) hp rfl hr3 (by unfold SIZE_MODULUS; omega)
  have hadd : intAdd s1.currentIndex 1 = .ok (s1.currentIndex + 1) := by
    unfold intAdd INT_MIN INT_MAX
    rw [hrest.2.1]
    simp only []
    rw [if_pos (by omega)]
  have hstep : nextPhoto s io =
      (do let s1 ← loadCurrentPhoto
            { s with currentIndex := (((i + 1) % s.photoFiles.length : Nat) : Int) } io
          let _ ← intAdd s1.currentIndex 1
          pure s1) := by
    unfold nextPhoto
    simp only [hp, hne, hi, ha, hr, hr2, bind, Except.bind]
    simp
  refine ⟨s1, ?_, hrest⟩
  rw [hstep, h1]
  simp only [bind, Except.bind, hadd, pure, Except.pure]

theorem prevPhoto_spec (s : Application) (io : ImageService) (i : Nat)
    (hp : s.hasPhotos = true) (hi : s.currentIndex = (i : Int))
    (hlt : i < s.photoFiles.length) (hn : s.photoFiles.length ≤ 2147483647) :
    ∃ s1, prevPhoto s io = .ok s1 ∧ s1.photoFiles = s.photoFiles ∧
      s1.currentIndex = (((i + s.photoFiles.length - 1) % s.photoFiles.length : Nat) : Int) ∧
      s1.hasPhotos = true ∧ s1.window = s.window ∧ s1.renderer = s.renderer ∧
      s1.surface = (s.photoFiles[(i + s.photoFiles.length - 1) % s.photoFiles.length]?).bind
        io.IMG_Load ∧
      s1.texture = ((s.photoFiles[(i + s.photoFiles.length - 1) % s.photoFiles.length]?).bind
        io.IMG_Load).bind (io.SDL_CreateTextureFromSurface s.renderer) := by
  obtain ⟨a, r, ha, hr, hr2, hr3⟩ := prevIndex_eq i s.photoFiles.length hlt hn
  have hne := isEmpty_false_of_lt _ _ hlt
  obtain ⟨s1, h1, hrest⟩ := loadCurrentPhoto_spec
    { s with currentIndex := (((i + s.photoFiles.length - 1) % s.photoFiles.length : Nat) : Int) }
    io ((i + s.photoFiles.length - 1) % s.photoFiles.length) hp rfl hr3
    (by unfold SIZE_MODULUS; omega)
  have hadd : intAdd s1.currentIndex 1 = .ok (s1.currentIndex + 1) := by
    unfold intAdd INT_MIN INT_MAX
    rw [hrest.2.1]
    simp only []
    rw [if_pos (by omega)]
  have hstep : prevPhoto s io =
      (do let s1 ← loadCurrentPhoto
            { s with currentIndex :=
                (((i + s.photoFiles.length - 1) % s.photoFiles.length : Nat) : Int) } io
          let _ ← intAdd s1.currentIndex 1
          pure s1) := by
    unfold prevPhoto
    simp only [hp, hne, hi, ha, hr, hr2, bind, Except.bind]
    simp
  refine ⟨s1, ?_, hrest⟩
  rw [hstep, h1]
  simp only [bind, Except.bind, hadd, pure, Except.pure]

theorem succ_mod_pred (i n : Nat) (hlt : i < n) : ((i + 1) % n + n - 1) % n = i := by
  rcases Nat.lt_or_ge (i + 1) n with h | h
  · rw [Nat.mod_eq_of_lt h]
    have : i + 1 + n - 1 = i + n := by omega
    rw [this, Nat.add_mod_right, Nat.mod_eq_of_lt hlt]
  · have hn : i + 1 = n := by omega
    rw [hn, Nat.mod_self]
    have : 0 + n - 1 = i := by omega
    rw [this, Nat.mod_eq_of_lt hlt]

theorem pred_mod_succ (i n : Nat) (hlt : i < n) : ((i + n - 1) % n + 1) % n = i := by
  rcases Nat.eq_zero_or_pos i with h | h
  · subst h
    have : (0 + n - 1) % n = n - 1 := by
      rw [Nat.zero_add]; exact Nat.mod_eq_of_lt (by omega)
    rw [this]
    have : n - 1 + 1 = n := by omega
    rw [this, Nat.mod_self]
  · have : i + n - 1 = (i - 1) + n := by omega
    have h1 : (i - 1) % n = i - 1 := Nat.mod_eq_of_lt (by omega)
    have h2 : i - 1 + 1 = i := by omega
    rw [this, Nat.add_mod_right, h1, h2, Nat.mod_eq_of_lt hlt]

/-- C1: in a state with `hasPhotos` true, a `photoFiles` of size `n` (at most
`INT_MAX`, so that the `int` cursor can address it) and `currentIndex` in
`[0, n)`, which makes `photoFiles` non-empty, `nextPhoto` followed by `prevPhoto`, and
`prevPhoto` followed by `nextPhoto`, both complete and leave `currentIndex`
at its original value, whatever the image library answers in the two
reloads. -/
theorem nextPhoto_prevPhoto_roundtrip (s : Application) (io1 io2 : ImageService)
    (hp : s.hasPhotos = true)
    (h0 : 0 ≤ s.currentIndex) (hlt : s.currentIndex < (s.photoFiles.length : Int))
    (hn : (s.photoFiles.length : Int) ≤ INT_MAX) :
    (∃ s1 s2, nextPhoto s io1 = .ok s1 ∧ prevPhoto s1 io2 = .ok s2 ∧
      s2.currentIndex = s.currentIndex ∧ s2.photoFiles = s.photoFiles) ∧
    (∃ s1 s2, prevPhoto s io1 = .ok s1 ∧ nextPhoto s1 io2 = .ok s2 ∧
      s2.currentIndex = s.currentIndex ∧ s2.photoFiles = s.photoFiles) := by
  obtain ⟨i, hi⟩ := Int.eq_ofNat_of_zero_le h0
  have hlt2 : i < s.photoFiles.length := by omega
  have hn2 : s.photoFiles.length ≤ 2147483647 := by unfold INT_MAX at hn; omega
  constructor
  · obtain ⟨s1, h1, hf1, hc1, hp1, -⟩ := nextPhoto_spec s io1 i hp hi hlt2 hn2
    have hm : (i + 1) % s.photoFiles.length < s1.photoFiles.length := by
      rw [hf1]; exact Nat.mod_lt _ (by omega)
    obtain ⟨s2, h2, hf2, hc2, -⟩ :=
      prevPhoto_spec s1 io2 ((i + 1) % s.photoFiles.length) hp1 hc1 hm (by rw [hf1]; exact hn2)
    refine ⟨s1, s2, h1, h2, ?_, by rw [hf2, hf1]⟩
    rw [hc2, hf1, succ_mod_pred i _ hlt2, hi]
  · obtain ⟨s1, h1, hf1, hc1, hp1, -⟩ := prevPhoto_spec s io1 i hp hi hlt2 hn2
    have hm : (i + s.photoFiles.length - 1) % s.photoFiles.length < s1.photoFiles.length := by
      rw [hf1]; exact Nat.mod_lt _ (by omega)
    obtain ⟨s2, h2, hf2, hc2, -⟩ :=
      nextPhoto_spec s1 io2 ((i + s.photoFiles.length - 1) % s.photoFiles.length) hp1 hc1 hm
        (by rw [hf1]; exact hn2)
    refine ⟨s1, s2, h1, h2, ?_, by rw [hf2, hf1]⟩
    rw [hc2, hf1, pred_mod_succ i _ hlt2, hi]

/-- Witness for C1 on three photos with the cursor on the last one; the first
reload fails to decode. -/
theorem nextPhoto_prevPhoto_roundtrip_witness :
    (∃ s1 s2, nextPhoto browsing decodeFails = .ok s1 ∧ prevPhoto s1 decodeOk = .ok s2 ∧
      s2.currentIndex = browsing.currentIndex ∧ s2.photoFiles = browsing.photoFiles) ∧
    (∃ s1 s2, prevPhoto browsing decodeFails = .ok s1 ∧ nextPhoto s1 decodeOk = .ok s2 ∧
      s2.currentIndex = browsing.currentIndex ∧ s2.photoFiles = browsing.photoFiles) :=
  nextPhoto_prevPhoto_roundtrip browsing decodeFails decodeOk rfl (by decide) (by decide)
    (by decide)

theorem nextPhotoTimes_spec (ios : List ImageService) :
    ∀ (s : Application) (i : Nat), s.hasPhotos = true → s.currentIndex = (i : Int) →
      i < s.photoFiles.length → s.photoFiles.length ≤ 2147483647 →
      ∃ s1, nextPhotoTimes s ios = .ok s1 ∧ s1.photoFiles = s.photoFiles ∧
        s1.currentIndex = (((i + ios.length) % s.photoFiles.length : Nat) : Int) ∧
        s1.hasPhotos = true := by
  induction ios with
  | nil =>
    intro s i hp hi hlt _
    refine ⟨s, rfl, rfl, ?_, hp⟩
    simp [hi, Nat.mod_eq_of_lt hlt]
  | cons io ios ih =>
    intro s i hp hi hlt hn
    obtain ⟨s1, h1, hf1, hc1, hp1, -⟩ := nextPhoto_spec s io i hp hi hlt hn
    have hm : (i + 1) % s.photoFiles.length < s1.photoFiles.length := by
      rw [hf1]; exact Nat.mod_lt _ (by omega)
    obtain ⟨s2, h2, hf2, hc2, hp2⟩ := ih s1 _ hp1 hc1 hm (by rw [hf1]; exact hn)
    refine ⟨s2, ?_, by rw [hf2, hf1], ?_, hp2⟩
    · simp only [nextPhotoTimes, h1, bind, Except.bind]
      exact h2
    · rw [hc2, hf1, Nat.mod_add_mod, List.length_cons]
      congr 2
      omega

/-- C2: in a state with `hasPhotos` true, a `photoFiles` of size `n` with
`1 ≤ n ≤ INT_MAX` and `currentIndex` in `[0, n)`, calling `nextPhoto` exactly
`n` times (one image-library outcome per call) completes and returns
`currentIndex` to its starting value. -/
theorem nextPhoto_n_times (s : Application) (ios : List ImageService)
    (hp : s.hasPhotos = true) (h1 : 1 ≤ s.photoFiles.length)
    (h0 : 0 ≤ s.currentIndex) (hlt : s.currentIndex < (s.photoFiles.length : Int))
    (hn : (s.photoFiles.length : Int) ≤ INT_MAX)
    (hlen : ios.length = s.photoFiles.length) :
    ∃ s1, nextPhotoTimes s ios = .ok s1 ∧ s1.currentIndex = s.currentIndex ∧
      s1.photoFiles = s.photoFiles := by
  obtain ⟨i, hi⟩ := Int.eq_ofNat_of_zero_le h0
  have hlt2 : i < s.photoFiles.length := by omega
  have hn2 : s.photoFiles.length ≤ 2147483647 := by unfold INT_MAX at hn; omega
  obtain ⟨s1, hr, hf, hc, -⟩ := nextPhotoTimes_spec ios s i hp hi hlt2 hn2
  refine ⟨s1, hr, ?_, hf⟩
  rw [hc, hlen, Nat.add_mod_right, Nat.mod_eq_of_lt hlt2, hi]

/-- Witness for C2 on three photos: three calls, the second one failing to
decode. -/
theorem nextPhoto_n_times_witness :
    ∃ s1, nextPhotoTimes browsing [decodeOk, decodeFails, decodeOk] = .ok s1 ∧
      s1.currentIndex = browsing.currentIndex ∧ s1.photoFiles = browsing.photoFiles :=
  nextPhoto_n_times browsing [decodeOk, decodeFails, decodeOk] rfl (by decide) (by decide)
    (by decide) (by decide) rfl

/-- C4: in a state whose `photoFiles` is empty, `nextPhoto` and `prevPhoto`
return normally with the state unchanged, for every answer the image library
could give: `photoFiles`, `currentIndex`, `hasPhotos`, the surface and the
texture are as before, no library call is recorded (no decode is attempted)
and no fault occurs (the modulo by `photoFiles.size()` is not evaluated). -/
theorem nextPhoto_prevPhoto_empty (s : Application) (io : ImageService)
    (hempty : s.photoFiles = []) :
    nextPhoto s io = .ok s ∧ prevPhoto s io = .ok s := by
  unfold nextPhoto prevPhoto
  simp [hempty]

/-- Witness for C4 on the freshly constructed application. -/
theorem nextPhoto_prevPhoto_empty_witness :
    nextPhoto Application.new decodeOk = .ok Application.new ∧
      prevPhoto Application.new decodeOk = .ok Application.new :=
  nextPhoto_prevPhoto_empty Application.new decodeOk rfl

theorem find_last_of_succ_le (l : List Char) (c : Char) :
    sizeAdd (find_last_of l c) 1 ≤ l.length := by
  unfold sizeAdd find_last_of
  by_cases h : c ∈ l
  · rw [if_pos h]
    have hpos : 0 < l.length := List.length_pos_of_mem h
    exact le_trans (Nat.mod_le _ _) (by omega)
  · rw [if_neg h]
    unfold npos SIZE_MODULUS
    simp

theorem isImageFile_total (filename : String) : ∃ b, isImageFile filename = .ok b := by
  unfold isImageFile substr
  have h := find_last_of_succ_le filename.toList '.'
  rw [if_neg (by omega)]
  exact ⟨_, rfl⟩

theorem scanEntries_total (entries : List DirectoryEntry) :
    ∀ files, ∃ out, scanEntries files entries = .ok out := by
  induction entries with
  | nil => intro files; exact ⟨files, rfl⟩
  | cons e rest ih =>
    intro files
    obtain ⟨b, hb⟩ := isImageFile_total e.path
    unfold scanEntries
    by_cases hreg : e.is_regular_file = true
    · simp only [hreg, if_true, hb, bind, Except.bind]
      exact ih _
    · simp only [hreg]
      exact ih _

theorem load_spec (s : Application) (directory : String) (fs : FileSystem)
    (io : ImageService) :
    ∃ files, scanEntries [] (fs directory).entries = .ok files ∧
      (((fs directory).throws = true ∨ files = []) →
        loadImagesFromDirectory s directory fs io =
          .ok (false, { s with photoFiles := files, currentIndex := 0, hasPhotos := false })) ∧
      ((fs directory).throws = false → files ≠ [] →
        ∃ s1, loadImagesFromDirectory s directory fs io = .ok (true, s1) ∧
          s1.photoFiles = files ∧ s1.currentIndex = 0 ∧ s1.hasPhotos = true ∧
          s1.window = s.window ∧ s1.renderer = s.renderer ∧
          s1.surface = (files[0]?).bind io.IMG_Load ∧
          s1.texture = ((files[0]?).bind io.IMG_Load).bind
            (io.SDL_CreateTextureFromSurface s.renderer)) := by
  obtain ⟨files, hscan⟩ := scanEntries_total (fs directory).entries []
  refine ⟨files, hscan, ?_, ?_⟩
  · intro h
    unfold loadImagesFromDirectory
    simp only [hscan, bind, Except.bind]
    rcases h with h | h
    · simp [h, pure, Except.pure]
    · subst h
      cases (fs directory).throws <;> simp [pure, Except.pure]
  · intro hthrow hne
    have hpos : 0 < files.length := List.length_pos.mpr hne
    obtain ⟨s1, h1, hf, hc, hp, hw, hr, hs, ht⟩ :=
      loadCurrentPhoto_spec
        { s with photoFiles := files, currentIndex := 0, hasPhotos := true } io 0 rfl rfl
        hpos (by unfold SIZE_MODULUS; omega)
    refine ⟨s1, ?_, hf, hc, hp, hw, hr, hs, ht⟩
    unfold loadImagesFromDirectory
    simp only [hscan, bind, Except.bind, hthrow]
    have hemp : files.isEmpty = false := isEmpty_false_of_lt _ _ hpos
    simp [hemp, h1, pure, Except.pure]

theorem next_prev_stores (t : Application) (io : ImageService)
    (hp : t.hasPhotos = true) (h0 : 0 ≤ t.currentIndex)
    (hlt : t.currentIndex < (t.photoFiles.length : Int))
    (hn : t.photoFiles.length ≤ 2147483647) :
    (∃ t1, nextPhoto t io = .ok t1 ∧ t1.photoFiles = t.photoFiles ∧
      t1.currentIndex = (t.currentIndex + 1) % (t.photoFiles.length : Int) ∧
      0 ≤ t1.currentIndex ∧ t1.currentIndex < (t.photoFiles.length : Int)) ∧
    (∃ t1, prevPhoto t io = .ok t1 ∧ t1.photoFiles = t.photoFiles ∧
      t1.currentIndex =
        (t.currentIndex - 1 + (t.photoFiles.length : Int)) % (t.photoFiles.length : Int) ∧
      0 ≤ t1.currentIndex ∧ t1.currentIndex < (t.photoFiles.length : Int)) := by
  obtain ⟨i, hi⟩ := Int.eq_ofNat_of_zero_le h0
  have hlt2 : i < t.photoFiles.length := by omega
  constructor
  · obtain ⟨t1, h1, hf1, hc1, -⟩ := nextPhoto_spec t io i hp hi hlt2 hn
    have hm : (i + 1) % t.photoFiles.length < t.photoFiles.length :=
      Nat.mod_lt _ (by omega)
    refine ⟨t1, h1, hf1, ?_, by rw [hc1]; omega, by rw [hc1]; omega⟩
    rw [hc1, hi]; push_cast; rfl
  · obtain ⟨t1, h1, hf1, hc1, -⟩ := prevPhoto_spec t io i hp hi hlt2 hn
    have hm : (i + t.photoFiles.length - 1) % t.photoFiles.length < t.photoFiles.length :=
      Nat.mod_lt _ (by omega)
    refine ⟨t1, h1, hf1, ?_, by rw [hc1]; omega, by rw [hc1]; omega⟩
    rw [hc1, hi, Int.natCast_mod]
    congr 1
    omega

theorem step_inv (s : Application) (op : Op)
    (hlen : s.photoFiles.length ≤ 2147483647)
    (hinv : s.photoFiles ≠ [] →
      0 ≤ s.currentIndex ∧ s.currentIndex < (s.photoFiles.length : Int))
    (hop : ∀ d fs io, op = Op.load d fs io → ∀ files,
      scanEntries [] (fs d).entries = .ok files → files.length ≤ 2147483647) :
    ∃ s1, step s op = .ok s1 ∧ s1.photoFiles.length ≤ 2147483647 ∧
      (s1.photoFiles ≠ [] →
        0 ≤ s1.currentIndex ∧ s1.currentIndex < (s1.photoFiles.length : Int)) := by
  cases op with
  | load d fs io =>
    obtain ⟨files, hscan, hfail, hgood⟩ := load_spec s d fs io
    have hb := hop d fs io rfl files hscan
    by_cases hc : (fs d).throws = true ∨ files = []
    · refine ⟨{ s with photoFiles := files, currentIndex := 0, hasPhotos := false },
        ?_, hb, ?_⟩
      · simp only [step, hfail hc, bind, Except.bind, pure, Except.pure]
      · intro hne
        have : 0 < files.length := List.length_pos.mpr hne
        simp only [Int.le_refl, true_and]
        omega
    · have hthrow : (fs d).throws = false := by
        cases h : (fs d).throws
        · rfl
        · exact absurd (Or.inl h) hc
      have hne : files ≠ [] := fun h => hc (Or.inr h)
      obtain ⟨s1, h1, hf, hci, -⟩ := hgood hthrow hne
      refine ⟨s1, ?_, by rw [hf]; exact hb, ?_⟩
      · simp only [step, h1, bind, Except.bind, pure, Except.pure]
      · intro _
        have : 0 < files.length := List.length_pos.mpr hne
        rw [hci, hf]
        omega
  | next io =>
    by_cases hg : s.hasPhotos = true ∧ s.photoFiles ≠ []
    · obtain ⟨h0, hlt⟩ := hinv hg.2
      obtain ⟨⟨t1, h1, hf1, -, hge, hlt1⟩, -⟩ := next_prev_stores s io hg.1 h0 hlt hlen
      exact ⟨t1, h1, by rw [hf1]; exact hlen, fun _ => by rw [hf1]; exact ⟨hge, hlt1⟩⟩
    · refine ⟨s, ?_, hlen, hinv⟩
      unfold step nextPhoto
      cases hp : s.hasPhotos <;> cases hl : s.photoFiles <;> simp_all
  | prev io =>
    by_cases hg : s.hasPhotos = true ∧ s.photoFiles ≠ []
    · obtain ⟨h0, hlt⟩ := hinv hg.2
      obtain ⟨-, ⟨t1, h1, hf1, -, hge, hlt1⟩⟩ := next_prev_stores s io hg.1 h0 hlt hlen
      exact ⟨t1, h1, by rw [hf1]; exact hlen, fun _ => by rw [hf1]; exact ⟨hge, hlt1⟩⟩
    · refine ⟨s, ?_, hlen, hinv⟩
      unfold step prevPhoto
      cases hp : s.hasPhotos <;> cases hl : s.photoFiles <;> simp_all

theorem run_inv (ops : List Op) :
    ∀ (s : Application), s.photoFiles.length ≤ 2147483647 →
      (s.photoFiles ≠ [] →
        0 ≤ s.currentIndex ∧ s.currentIndex < (s.photoFiles.length : Int)) →
      (∀ d fs io, Op.load d fs io ∈ ops → ∀ files,
        scanEntries [] (fs d).entries = .ok files → files.length ≤ 2147483647) →
      ∃ s1, run s ops = .ok s1 ∧ s1.photoFiles.length ≤ 2147483647 ∧
        (s1.photoFiles ≠ [] →
          0 ≤ s1.currentIndex ∧ s1.currentIndex < (s1.photoFiles.length : Int)) := by
  induction ops with
  | nil => intro s hlen hinv _; exact ⟨s, rfl, hlen, hinv⟩
  | cons op ops ih =>
    intro s hlen hinv hops
    obtain ⟨s1, h1, hlen1, hinv1⟩ := step_inv s op hlen hinv
      (fun d fs io h => by subst h; exact hops d fs io (List.mem_cons_self _ _))
    obtain ⟨s2, h2, hlen2, hinv2⟩ := ih s1 hlen1 hinv1
      (fun d fs io h => hops d fs io (List.mem_cons_of_mem _ h))
    refine ⟨s2, ?_, hlen2, hinv2⟩
    simp only [run, h1, bind, Except.bind]
    exact h2

/-- C3: every sequence of `loadImagesFromDirectory`, `nextPhoto` and
`prevPhoto` calls on the constructed `Application`, in which each scan finds
at most `INT_MAX` image files, runs to completion without a fault (so every
`photoFiles[currentIndex]` read by `loadCurrentPhoto` is in bounds) and ends
in a state where a non-empty `photoFiles` has
`0 ≤ currentIndex < photoFiles.size()`. Moreover, with `int` 32 bits wide and
`size_t` 64 bits wide and wrapping, in every state with `hasPhotos` true,
`1 ≤ n ≤ INT_MAX` and `currentIndex = i` in `[0, n)`, `nextPhoto` stores
`(i + 1) mod n` and `prevPhoto` stores `(i - 1 + n) mod n`, both in
`[0, n)`. -/
theorem currentIndex_in_bounds (ops : List Op)
    (hops : ∀ d fs io, Op.load d fs io ∈ ops → ∀ files,
      scanEntries [] (fs d).entries = .ok files → (files.length : Int) ≤ INT_MAX) :
    (∃ s, run Application.new ops = .ok s ∧
      (s.photoFiles ≠ [] →
        0 ≤ s.currentIndex ∧ s.currentIndex < (s.photoFiles.length : Int))) ∧
    (∀ (t : Application) (io : ImageService), t.hasPhotos = true →
      1 ≤ t.photoFiles.length → (t.photoFiles.length : Int) ≤ INT_MAX →
      0 ≤ t.currentIndex → t.currentIndex < (t.photoFiles.length : Int) →
      (∃ t1, nextPhoto t io = .ok t1 ∧ t1.photoFiles = t.photoFiles ∧
        t1.currentIndex = (t.currentIndex + 1) % (t.photoFiles.length : Int) ∧
        0 ≤ t1.currentIndex ∧ t1.currentIndex < (t.photoFiles.length : Int)) ∧
      (∃ t1, prevPhoto t io = .ok t1 ∧ t1.photoFiles = t.photoFiles ∧
        t1.currentIndex =
          (t.currentIndex - 1 + (t.photoFiles.length : Int)) % (t.photoFiles.length : Int) ∧
        0 ≤ t1.currentIndex ∧ t1.currentIndex < (t.photoFiles.length : Int))) := by
  constructor
  · obtain ⟨s, hr, -, hinv⟩ := run_inv ops Application.new (by simp [Application.new])
      (by simp [Application.new])
      (fun d fs io hmem files hscan => by
        have := hops d fs io hmem files hscan
        unfold INT_MAX at this; omega)
    exact ⟨s, hr, hinv⟩
  · intro t io hp _ hn h0 hlt
    exact next_prev_stores t io hp h0 hlt (by unfold INT_MAX at hn; omega)

/-- Witness for C3: load two photos, step back (decode fails), step forward,
hit an unreadable directory, step forward. -/
theorem currentIndex_in_bounds_witness :
    ∃ s, run Application.new
        [Op.load "d" photoDirectory decodeOk, Op.prev decodeFails, Op.next decodeOk,
          Op.load "d" unreadableDirectory decodeOk, Op.next decodeOk] = .ok s ∧
      (s.photoFiles ≠ [] →
        0 ≤ s.currentIndex ∧ s.currentIndex < (s.photoFiles.length : Int)) :=
  (currentIndex_in_bounds
    [Op.load "d" photoDirectory decodeOk, Op.prev decodeFails, Op.next decodeOk,
      Op.load "d" unreadableDirectory decodeOk, Op.next decodeOk]
    (by
      intro d fs io hmem files hscan
      simp only [List.mem_cons, Op.load.injEq, List.mem_singleton, reduceCtorEq, false_or,
        or_false, List.not_mem_nil] at hmem
      rcases hmem with ⟨-, rfl, -⟩ | ⟨-, rfl, -⟩
      · have h : scanEntries [] (photoDirectory d).entries = .ok ["d/a.png", "d/c.JPG"] := rfl
        rw [h] at hscan; cases hscan; decide
      · have h : scanEntries [] (unreadableDirectory d).entries = .ok ["d/a.png"] := rfl
        rw [h] at hscan; cases hscan; decide)).1

theorem scanEntries_no_image (entries : List DirectoryEntry) :
    ∀ files, (∀ e ∈ entries, e.is_regular_file = true → isImageFile e.path = .ok false) →
      scanEntries files entries = .ok files := by
  induction entries with
  | nil => intro files _; rfl
  | cons e rest ih =>
    intro files h
    unfold scanEntries
    by_cases hreg : e.is_regular_file = true
    · have hb := h e (List.mem_cons_self _ _) hreg
      simp only [hreg, if_true, hb, bind, Except.bind]
      exact ih files (fun e1 h1 => h e1 (List.mem_cons_of_mem _ h1))
    · simp only [hreg]
      exact ih files (fun e1 h1 => h e1 (List.mem_cons_of_mem _ h1))

theorem render_no_photos (s : Application) (h : s.hasPhotos = false) :
    render s = { photo := none, messageBox := true, navButtons := false } := by
  unfold render
  simp [h]

theorem nav_noop_of_not_hasPhotos (s : Application) (io : ImageService)
    (h : s.hasPhotos = false) : nextPhoto s io = .ok s ∧ prevPhoto s io = .ok s := by
  unfold nextPhoto prevPhoto
  simp [h]

/-- C6, the claim as stated fails: after a traversal that delivers `a.png`
and then throws, `photoFiles` is non-empty while `hasPhotos` is false. -/
theorem load_hasPhotos_iff_counterexample :
    ∃ r, loadImagesFromDirectory Application.new "d" unreadableDirectory decodeOk = .ok r ∧
      ¬ (r.2.hasPhotos = true ↔ r.2.photoFiles ≠ []) :=
  ⟨_, rfl, by decide⟩

/-- C6 as amended: for every prior state and every scan outcome,
`loadImagesFromDirectory` returns with `photoFiles` equal to what the scan of
the delivered entries collects starting from the empty list (nothing of the
old contents), `currentIndex` equal to 0, and `hasPhotos` true if and only if
the traversal completed without error and the new `photoFiles` is non-empty;
the returned `bool` equals `hasPhotos`. -/
theorem load_resets_state (s : Application) (directory : String) (fs : FileSystem)
    (io : ImageService) :
    ∃ files ret s1, scanEntries [] (fs directory).entries = .ok files ∧
      loadImagesFromDirectory s directory fs io = .ok (ret, s1) ∧
      s1.photoFiles = files ∧ s1.currentIndex = 0 ∧
      (s1.hasPhotos = true ↔ ((fs directory).throws = false ∧ s1.photoFiles ≠ [])) ∧
      ret = s1.hasPhotos := by
  obtain ⟨files, hscan, hfail, hgood⟩ := load_spec s directory fs io
  by_cases hc : (fs directory).throws = true ∨ files = []
  · refine ⟨files, false, _, hscan, hfail hc, rfl, rfl, ?_, rfl⟩
    simp only [Bool.false_eq_true, false_iff, not_and, not_not]
    intro hthrow
    rcases hc with h | h
    · rw [hthrow] at h; exact absurd h (by decide)
    · exact h
  · have hthrow : (fs directory).throws = false := by
      cases h : (fs directory).throws
      · rfl
      · exact absurd (Or.inl h) hc
    have hne : files ≠ [] := fun h => hc (Or.inr h)
    obtain ⟨s1, h1, hf, hci, hp, -⟩ := hgood hthrow hne
    refine ⟨files, true, s1, hscan, h1, hf, hci, ?_, hp.symm⟩
    rw [hf]
    exact ⟨fun _ => ⟨hthrow, hne⟩, fun _ => hp⟩

/-- C7, the claim as stated fails: a traversal that delivers `a.png` and then
throws makes `loadImagesFromDirectory` return false with `a.png` still in
`photoFiles`. -/
theorem load_error_keeps_found_counterexample :
    ∃ s1, loadImagesFromDirectory browsing "d" unreadableDirectory decodeOk = .ok (false, s1) ∧
      s1.photoFiles = ["d/a.png"] ∧ s1.photoFiles ≠ [] :=
  ⟨_, rfl, rfl, by decide⟩

/-- C7 as amended: when the traversal throws, `loadImagesFromDirectory`
returns false with `hasPhotos` false and `currentIndex` 0; `photoFiles` holds
what the scan collected from the entries delivered before the error, starting
from the empty list (nothing of the previous contents, and nothing at all when
none of those entries is an image file); with `hasPhotos` false, `render`
draws the message box and no photo, and `nextPhoto` and `prevPhoto` leave the
state unchanged. -/
theorem load_error_returns_false (s : Application) (directory : String) (fs : FileSystem)
    (io : ImageService) (hthrow : (fs directory).throws = true) :
    ∃ files s1, scanEntries [] (fs directory).entries = .ok files ∧
      loadImagesFromDirectory s directory fs io = .ok (false, s1) ∧
      s1.photoFiles = files ∧ s1.hasPhotos = false ∧ s1.currentIndex = 0 ∧
      ((∀ e ∈ (fs directory).entries, e.is_regular_file = true →
          isImageFile e.path = .ok false) → s1.photoFiles = []) ∧
      (render s1).photo = none ∧ (render s1).messageBox = true ∧
      (∀ io1, nextPhoto s1 io1 = .ok s1 ∧ prevPhoto s1 io1 = .ok s1) := by
  obtain ⟨files, hscan, hfail, -⟩ := load_spec s directory fs io
  refine ⟨files, _, hscan, hfail (Or.inl hthrow), rfl, rfl, rfl, ?_, ?_, ?_, ?_⟩
  · intro hnone
    have := scanEntries_no_image _ [] hnone
    rw [hscan] at this
    cases this
    rfl
  · rw [render_no_photos _ rfl]
  · rw [render_no_photos _ rfl]
  · intro io1
    exact nav_noop_of_not_hasPhotos _ io1 rfl

/-- Witness for C7 as amended: an unreadable directory is loaded while a photo
is on display. -/
theorem load_error_returns_false_witness :
    ∃ files s1, scanEntries [] (unreadableDirectory "d").entries = .ok files ∧
      loadImagesFromDirectory browsing "d" unreadableDirectory decodeOk = .ok (false, s1) ∧
      s1.photoFiles = files ∧ s1.hasPhotos = false ∧ s1.currentIndex = 0 ∧
      ((∀ e ∈ (unreadableDirectory "d").entries, e.is_regular_file = true →
          isImageFile e.path = .ok false) → s1.photoFiles = []) ∧
      (render s1).photo = none ∧ (render s1).messageBox = true ∧
      (∀ io1, nextPhoto s1 io1 = .ok s1 ∧ prevPhoto s1 io1 = .ok s1) :=
  load_error_returns_false browsing "d" unreadableDirectory decodeOk rfl

/-- C10: from every prior state, loading a directory in which no delivered
entry is an image file makes `loadImagesFromDirectory` return false and leaves
`hasPhotos` false and `photoFiles` empty; `render` then takes the no-photo
branch: it draws the message box, hands no texture to `SDL_RenderCopy` and
draws no navigation buttons. -/
theorem load_no_images (s : Application) (directory : String) (fs : FileSystem)
    (io : ImageService)
    (hnone : ∀ e ∈ (fs directory).entries, e.is_regular_file = true →
      isImageFile e.path = .ok false) :
    ∃ s1, loadImagesFromDirectory s directory fs io = .ok (false, s1) ∧
      s1.hasPhotos = false ∧ s1.photoFiles = [] ∧
      render s1 = { photo := none, messageBox := true, navButtons := false } := by
  obtain ⟨files, hscan, hfail, -⟩ := load_spec s directory fs io
  have hfiles : files = [] := by
    have := scanEntries_no_image _ [] hnone
    rw [hscan] at this
    cases this
    rfl
  exact ⟨_, hfail (Or.inr hfiles), rfl, hfiles, render_no_photos _ rfl⟩

/-- Witness for C10: a directory without images is loaded while a photo of
the previous directory is decoded and on display. -/
theorem load_no_images_witness :
    (render browsing).photo = some 9 ∧
    ∃ s1, loadImagesFromDirectory browsing "d" imagelessDirectory decodeOk = .ok (false, s1) ∧
      s1.hasPhotos = false ∧ s1.photoFiles = [] ∧
      render s1 = { photo := none, messageBox := true, navButtons := false } :=
  ⟨rfl, load_no_images browsing "d" imagelessDirectory decodeOk (by
    intro e he hreg
    simp only [imagelessDirectory, List.mem_cons, List.mem_singleton, List.not_mem_nil,
      or_false] at he
    rcases he with rfl | rfl
    · rfl
    · exact absurd hreg (by decide))⟩

theorem next_after_move (s1 : Application) (files : List String) (k : Nat)
    (io2 : ImageService) (hf : s1.photoFiles = files) (hc : s1.currentIndex = (k : Int))
    (hp : s1.hasPhotos = true) (hk : k < files.length) (hn : files.length ≤ 2147483647) :
    ∃ s2, nextPhoto s1 io2 = .ok s2 ∧
      s2.currentIndex = (((k + 1) % files.length : Nat) : Int) ∧
      (k + 1 < files.length → s2.currentIndex = (k : Int) + 1) := by
  subst hf
  obtain ⟨s2, h2, -, hc2, -⟩ := nextPhoto_spec s1 io2 k hp hc hk hn
  refine ⟨s2, h2, hc2, fun h => ?_⟩
  rw [hc2, Nat.mod_eq_of_lt h]
  push_cast; rfl

/-- C8: let `files` be a PhotoSet of size `n` with `1 ≤ n ≤ INT_MAX`, `k` an
index in `[0, n)` and `io` an image library in which decoding `files[k]`
fails. Whenever `nextPhoto`, `prevPhoto` or `loadImagesFromDirectory` moves
the cursor to `k` while consulting `io`, the call completes with
`currentIndex = k` and with surface and texture null (whatever was loaded
before), and a following `nextPhoto`, with any image library `io2`, completes
with `currentIndex = (k + 1) mod n`, which is `k + 1` when `k < n - 1`. -/
theorem decode_failure_keeps_cursor (files : List String) (k : Nat)
    (io io2 : ImageService)
    (hk : k < files.length) (hn : (files.length : Int) ≤ INT_MAX)
    (hfail : ∀ f, files[k]? = some f → io.IMG_Load f = none) :
    (∀ s : Application, s.photoFiles = files → s.hasPhotos = true → 0 ≤ s.currentIndex →
      s.currentIndex < (files.length : Int) →
      (s.currentIndex + 1) % (files.length : Int) = (k : Int) →
      ∃ s1, nextPhoto s io = .ok s1 ∧ s1.photoFiles = files ∧ s1.currentIndex = (k : Int) ∧
        s1.surface = none ∧ s1.texture = none ∧
        ∃ s2, nextPhoto s1 io2 = .ok s2 ∧
          s2.currentIndex = (((k + 1) % files.length : Nat) : Int) ∧
          (k + 1 < files.length → s2.currentIndex = (k : Int) + 1)) ∧
    (∀ s : Application, s.photoFiles = files → s.hasPhotos = true → 0 ≤ s.currentIndex →
      s.currentIndex < (files.length : Int) →
      (s.currentIndex - 1 + (files.length : Int)) % (files.length : Int) = (k : Int) →
      ∃ s1, prevPhoto s io = .ok s1 ∧ s1.photoFiles = files ∧ s1.currentIndex = (k : Int) ∧
        s1.surface = none ∧ s1.texture = none ∧
        ∃ s2, nextPhoto s1 io2 = .ok s2 ∧
          s2.currentIndex = (((k + 1) % files.length : Nat) : Int) ∧
          (k + 1 < files.length → s2.currentIndex = (k : Int) + 1)) ∧
    (∀ (s : Application) (directory : String) (fs : FileSystem),
      (fs directory).throws = false → scanEntries [] (fs directory).entries = .ok files →
      k = 0 →
      ∃ s1, loadImagesFromDirectory s directory fs io = .ok (true, s1) ∧
        s1.photoFiles = files ∧ s1.currentIndex = (k : Int) ∧
        s1.surface = none ∧ s1.texture = none ∧
        ∃ s2, nextPhoto s1 io2 = .ok s2 ∧
          s2.currentIndex = (((k + 1) % files.length : Nat) : Int) ∧
          (k + 1 < files.length → s2.currentIndex = (k : Int) + 1)) := by
  have hn2 : files.length ≤ 2147483647 := by unfold INT_MAX at hn; omega
  have hnone : (files[k]?).bind io.IMG_Load = none := by
    cases hget : files[k]? with
    | none => rfl
    | some f => simpa using hfail f hget
  refine ⟨?_, ?_, ?_⟩
  · intro s hf hp h0 hlt hmove
    subst hf
    obtain ⟨i, hi⟩ := Int.eq_ofNat_of_zero_le h0
    have hlt2 : i < s.photoFiles.length := by omega
    obtain ⟨s1, h1, hf1, hc1, hp1, -, -, hs1, ht1⟩ := nextPhoto_spec s io i hp hi hlt2 hn2
    have hidx : (i + 1) % s.photoFiles.length = k := by
      rw [hi] at hmove
      exact_mod_cast hmove
    rw [hidx] at hc1 hs1 ht1
    rw [hnone] at hs1 ht1
    exact ⟨s1, h1, hf1, hc1, hs1, ht1, next_after_move s1 _ k io2 hf1 hc1 hp1 hk hn2⟩
  · intro s hf hp h0 hlt hmove
    subst hf
    obtain ⟨i, hi⟩ := Int.eq_ofNat_of_zero_le h0
    have hlt2 : i < s.photoFiles.length := by omega
    obtain ⟨s1, h1, hf1, hc1, hp1, -, -, hs1, ht1⟩ := prevPhoto_spec s io i hp hi hlt2 hn2
    have hidx : (i + s.photoFiles.length - 1) % s.photoFiles.length = k := by
      rw [hi] at hmove
      have hcast : (((i + s.photoFiles.length - 1 : Nat)) : Int) =
          (i : Int) - 1 + (s.photoFiles.length : Int) := by omega
      have : (((i + s.photoFiles.length - 1) % s.photoFiles.length : Nat) : Int) = (k : Int) := by
        rw [Int.natCast_mod, hcast]; exact hmove
      exact_mod_cast this
    rw [hidx] at hc1 hs1 ht1
    rw [hnone] at hs1 ht1
    exact ⟨s1, h1, hf1, hc1, hs1, ht1, next_after_move s1 _ k io2 hf1 hc1 hp1 hk hn2⟩
  · intro s directory fs hthrow hscan hk0
    subst hk0
    obtain ⟨files1, hscan1, -, hgood⟩ := load_spec s directory fs io
    rw [hscan] at hscan1
    cases hscan1
    have hne : files ≠ [] := List.length_pos.mp hk
    obtain ⟨s1, h1, hf1, hc1, hp1, -, -, hs1, ht1⟩ := hgood hthrow hne
    rw [hnone] at hs1 ht1
    have hc1' : s1.currentIndex = ((0 : Nat) : Int) := by rw [hc1]; rfl
    exact ⟨s1, h1, hf1, hc1', hs1, ht1, next_after_move s1 _ 0 io2 hf1 hc1' hp1 hk hn2⟩

/-- Witness for C8: with a photo on display at index 2 of 3, `nextPhoto`
moves to index 0 whose decode fails; the next `nextPhoto` reaches index 1. -/
theorem decode_failure_keeps_cursor_witness :
    ∃ s1, nextPhoto browsing decodeFails = .ok s1 ∧ s1.photoFiles = browsing.photoFiles ∧
      s1.currentIndex = ((0 : Nat) : Int) ∧ s1.surface = none ∧ s1.texture = none ∧
      ∃ s2, nextPhoto s1 decodeOk = .ok s2 ∧
        s2.currentIndex = (((0 + 1) % browsing.photoFiles.length : Nat) : Int) ∧
        (0 + 1 < browsing.photoFiles.length → s2.currentIndex = ((0 : Nat) : Int) + 1) :=
  (decode_failure_keeps_cursor browsing.photoFiles 0 decodeFails decodeOk (by decide)
    (by decide) (fun _ _ => rfl)).1 browsing rfl rfl (by decide) (by decide) (by decide)

theorem init_false_iff (s : Application) (sdl : Platform) :
    (init s sdl).1 = false ↔
      (sdl.SDL_Init < 0 ∨ sdl.SDL_CreateWindow = none ∨ sdl.SDL_CreateRenderer = none) := by
  unfold init
  by_cases h1 : sdl.SDL_Init < 0
  · simp [h1]
  · cases h2 : sdl.SDL_CreateWindow <;> cases h3 : sdl.SDL_CreateRenderer <;>
      simp [h1, h2, h3, Application.record]

theorem eventLoop_entered (pending : List (List Event)) :
    ∀ (app : Application) (frames : List Frame) (r : MainResult),
      eventLoop app frames pending = .ok r →
      r.enteredLoop = true ∧ r.exitStatus ≠ some 1 := by
  induction pending with
  | nil =>
    intro app frames r h
    simp only [eventLoop, Except.ok.injEq] at h
    subst h
    exact ⟨rfl, by simp⟩
  | cons batch pending ih =>
    intro app frames r h
    unfold eventLoop at h
    cases hpoll : pollEvents (app, true) batch with
    | error e => simp [hpoll, bind, Except.bind] at h
    | ok st =>
      simp only [hpoll, bind, Except.bind] at h
      by_cases hrun : st.2 = true
      · simp only [hrun, if_true] at h
        exact ih _ _ r h
      · simp only [hrun, pure, Except.pure, Bool.false_eq_true, if_false,
          Except.ok.injEq] at h
        subst h
        exact ⟨rfl, by simp⟩

/-- C9, the claim as stated fails: when `SDL_Init`, `SDL_CreateWindow` and
`SDL_CreateRenderer` succeed and `IMG_Init` returns 0, `init` returns true and
`main` enters the event loop; with a quit event it exits with status 0. -/
theorem init_IMG_Init_counterexample :
    (init Application.new noImageSupport).1 = true ∧
      ∃ r, main noImageSupport [[Event.SDL_QUIT]] = .ok r ∧ r.enteredLoop = true ∧
        r.exitStatus = some 0 :=
  ⟨rfl, _, rfl, rfl, rfl⟩

/-- C9 as amended: `init` returns false if and only if `SDL_Init`,
`SDL_CreateWindow` or `SDL_CreateRenderer` fails, whatever `IMG_Init`
returns (an `IMG_Init` result of 0 is only reported). When one of the three
fails, `main` returns exit status 1 without entering the event loop and
without rendering a frame; when none of them fails, every completed run of
`main` has entered the event loop and does not exit with status 1. -/
theorem init_failure_exits (sdl : Platform) (pending : List (List Event)) :
    ((init Application.new sdl).1 = false ↔
      (sdl.SDL_Init < 0 ∨ sdl.SDL_CreateWindow = none ∨ sdl.SDL_CreateRenderer = none)) ∧
    ((sdl.SDL_Init < 0 ∨ sdl.SDL_CreateWindow = none ∨ sdl.SDL_CreateRenderer = none) →
      ∃ app, main sdl pending =
        .ok { exitStatus := some 1, enteredLoop := false, frames := [], app := app }) ∧
    (¬ (sdl.SDL_Init < 0 ∨ sdl.SDL_CreateWindow = none ∨ sdl.SDL_CreateRenderer = none) →
      ∀ r, main sdl pending = .ok r → r.enteredLoop = true ∧ r.exitStatus ≠ some 1) := by
  refine ⟨init_false_iff _ sdl, fun h => ?_, fun h r hr => ?_⟩
  · have hf := (init_false_iff Application.new sdl).mpr h
    refine ⟨(init Application.new sdl).2, ?_⟩
    unfold main
    simp [hf]
  · have ht : (init Application.new sdl).1 = true := by
      cases hi : (init Application.new sdl).1
      · exact absurd ((init_false_iff Application.new sdl).mp hi) h
      · rfl
    unfold main at hr
    simp only [ht, Bool.not_true, Bool.false_eq_true, if_false] at hr
    exact eventLoop_entered pending _ _ r hr

/-- Outside the paths a traversal delivers: on the bare word `png`, which
carries neither a `.` nor a `/`, `isImageFile` compares the whole text and
returns true, although the word has no extension. -/
theorem isImageFile_no_extension :
    specExtension "png" = none ∧ isImageFile "png" = .ok true ∧
      scanEntries [] [⟨"png", true⟩] = .ok ["png"] ∧ specScan [⟨"png", true⟩] = [] :=
  ⟨by decide, rfl, rfl, by decide⟩

/-! ## The scanner against the specification -/

theorem takeWhile_ne_cons (c x : Char) (xs : List Char) (h : x ≠ c) :
    (x :: xs).takeWhile (fun y => y != c) = x :: xs.takeWhile (fun y => y != c) := by
  simp [List.takeWhile_cons, h]

theorem take_indexOf_eq_takeWhile (c : Char) (r : List Char) :
    r.take (r.indexOf c) = r.takeWhile (fun x => x != c) := by
  induction r with
  | nil => rfl
  | cons x xs ih =>
    by_cases hx : x = c
    · subst hx
      simp [List.indexOf_cons_self]
    · rw [List.indexOf_cons_ne _ hx, List.take_succ_cons, ih, takeWhile_ne_cons c x xs hx]

theorem substr_after_last_dot (l : List Char) (hlen : l.length < SIZE_MODULUS)
    (hdot : '.' ∈ l) :
    substr l (sizeAdd (find_last_of l '.') 1) =
      .ok (l.reverse.takeWhile (fun x => x != '.')).reverse := by
  have hmem : '.' ∈ l.reverse := List.mem_reverse.mpr hdot
  have hidx : l.reverse.indexOf '.' < l.length := by
    have := List.indexOf_lt_length.mpr hmem
    simpa using this
  have hpos : sizeAdd (find_last_of l '.') 1 = l.length - l.reverse.indexOf '.' := by
    unfold sizeAdd find_last_of
    rw [if_pos hdot]
    have : l.length - 1 - l.reverse.indexOf '.' + 1 = l.length - l.reverse.indexOf '.' := by
      omega
    rw [this]
    exact Nat.mod_eq_of_lt (by omega)
  unfold substr
  rw [hpos, if_neg (by omega)]
  rw [← take_indexOf_eq_takeWhile, List.take_reverse, List.reverse_reverse]

theorem substr_no_dot (l : List Char) (hdot : '.' ∉ l) :
    substr l (sizeAdd (find_last_of l '.') 1) = .ok l := by
  have hpos : sizeAdd (find_last_of l '.') 1 = 0 := by
    unfold sizeAdd find_last_of
    rw [if_neg hdot]
    unfold npos SIZE_MODULUS
    decide
  unfold substr
  rw [hpos, if_neg (by omega)]
  rfl

theorem takeWhile_dot_of_mem_name (r : List Char)
    (h : '.' ∈ r.takeWhile (fun x => x != '/')) :
    (r.takeWhile (fun x => x != '/')).takeWhile (fun x => x != '.') =
      r.takeWhile (fun x => x != '.') := by
  induction r with
  | nil => rfl
  | cons x xs ih =>
    by_cases hs : x = '/'
    · subst hs
      simp at h
    · rw [takeWhile_ne_cons '/' x xs hs] at h ⊢
      by_cases hd : x = '.'
      · subst hd
        simp
      · rw [takeWhile_ne_cons '.' x _ hd, takeWhile_ne_cons '.' x _ hd]
        congr 1
        apply ih
        rcases List.mem_cons.mp h with h1 | h1
        · exact absurd h1.symm hd
        · exact h1

theorem slash_mem_of_dot_outside_name (r : List Char) (hdot : '.' ∈ r)
    (h : '.' ∉ r.takeWhile (fun x => x != '/')) :
    '/' ∈ r.takeWhile (fun x => x != '.') := by
  induction r with
  | nil => simp at hdot
  | cons x xs ih =>
    by_cases hs : x = '/'
    · subst hs
      simp
    · rw [takeWhile_ne_cons '/' x xs hs] at h
      have hd : x ≠ '.' := fun hx => h (by rw [hx]; exact List.mem_cons_self _ _)
      rw [takeWhile_ne_cons '.' x xs hd]
      apply List.mem_cons_of_mem
      apply ih
      · rcases List.mem_cons.mp hdot with h1 | h1
        · exact absurd h1.symm hd
        · exact h1
      · exact fun hx => h (List.mem_cons_of_mem _ hx)

theorem not_image_word_of_slash (e : List Char) (h : '/' ∈ e) :
    (e.map tolower == "jpg".toList || e.map tolower == "jpeg".toList ||
      e.map tolower == "png".toList) = false := by
  have hm : '/' ∈ e.map tolower := List.mem_map.mpr ⟨'/', h, by decide⟩
  have h1 : e.map tolower ≠ "jpg".toList := fun hx => by
    rw [hx] at hm; exact absurd hm (by decide)
  have h2 : e.map tolower ≠ "jpeg".toList := fun hx => by
    rw [hx] at hm; exact absurd hm (by decide)
  have h3 : e.map tolower ≠ "png".toList := fun hx => by
    rw [hx] at hm; exact absurd hm (by decide)
  have b1 : (e.map tolower == "jpg".toList) = false := beq_eq_false_iff_ne.mpr h1
  have b2 : (e.map tolower == "jpeg".toList) = false := beq_eq_false_iff_ne.mpr h2
  have b3 : (e.map tolower == "png".toList) = false := beq_eq_false_iff_ne.mpr h3
  rw [b1, b2, b3]
  rfl

/-- On a path that contains a `.` (and is shorter than `2 ^ 64` characters),
`isImageFile` decides as the specification words it. -/
theorem isImageFile_eq_spec_of_dot (p : String) (hlen : p.toList.length < SIZE_MODULUS)
    (hdot : '.' ∈ p.toList) : isImageFile p = .ok (specIsImage p) := by
  unfold isImageFile
  rw [substr_after_last_dot _ hlen hdot]
  simp only [bind, Except.bind, pure, Except.pure]
  congr 1
  unfold specIsImage specExtension specFileName
  by_cases hname : '.' ∈ (p.toList.reverse.takeWhile (fun c => c != '/')).reverse
  · rw [if_pos hname]
    simp only [List.reverse_reverse]
    rw [takeWhile_dot_of_mem_name _ (List.mem_reverse.mp hname)]
  · rw [if_neg hname]
    simp only []
    apply not_image_word_of_slash
    apply List.mem_reverse.mpr
    exact slash_mem_of_dot_outside_name _ (List.mem_reverse.mpr hdot)
      (fun hx => hname (List.mem_reverse.mpr hx))

/-- On a path without any `.`, `isImageFile` compares the whole path with the
three words, while the specification finds no extension. -/
theorem isImageFile_of_no_dot (p : String) (hdot : '.' ∉ p.toList) :
    isImageFile p = .ok (p.toList.map tolower == "jpg".toList ||
      p.toList.map tolower == "jpeg".toList || p.toList.map tolower == "png".toList) ∧
    specIsImage p = false := by
  constructor
  · unfold isImageFile
    rw [substr_no_dot _ hdot]
    rfl
  · unfold specIsImage specExtension specFileName
    have hname : '.' ∉ (p.toList.reverse.takeWhile (fun c => c != '/')).reverse := by
      intro hx
      exact hdot (List.mem_reverse.mp
        (List.takeWhile_subset _ (List.mem_reverse.mp hx)))
    rw [if_neg hname]

/-- On every path that carries a `.` or a `/`, that is every path but a bare
word such as `png`, `isImageFile` decides as the specification words it. -/
theorem isImageFile_eq_spec (p : String) (hlen : p.toList.length < SIZE_MODULUS)
    (h : '.' ∈ p.toList ∨ '/' ∈ p.toList) : isImageFile p = .ok (specIsImage p) := by
  by_cases hdot : '.' ∈ p.toList
  · exact isImageFile_eq_spec_of_dot p hlen hdot
  · have hs : '/' ∈ p.toList := h.resolve_left hdot
    obtain ⟨h1, h2⟩ := isImageFile_of_no_dot p hdot
    rw [h1, h2, not_image_word_of_slash _ hs]

/-- On a traversal whose regular files all have a path that carries a `.` or
a `/`, the loop of `loadImagesFromDirectory` appends to `photoFiles` exactly
the scan result of the specification. -/
theorem scanEntries_eq_specScan (entries : List DirectoryEntry) :
    ∀ files, (∀ e ∈ entries, e.is_regular_file = true →
        e.path.toList.length < SIZE_MODULUS ∧
        ('.' ∈ e.path.toList ∨ '/' ∈ e.path.toList)) →
      scanEntries files entries = .ok (files ++ specScan entries) := by
  induction entries with
  | nil => intro files _; simp [scanEntries, specScan]
  | cons e rest ih =>
    intro files h
    have hrest := fun files1 => ih files1 (fun e1 h1 => h e1 (List.mem_cons_of_mem _ h1))
    unfold scanEntries
    by_cases hreg : e.is_regular_file = true
    · obtain ⟨hlen, hshape⟩ := h e (List.mem_cons_self _ _) hreg
      simp only [hreg, if_true, isImageFile_eq_spec e.path hlen hshape, bind, Except.bind]
      rw [hrest]
      by_cases himg : specIsImage e.path = true
      · simp [specScan, List.filter_cons, hreg, himg]
      · simp [specScan, List.filter_cons, hreg, himg]
    · simp only [hreg]
      rw [hrest]
      simp [specScan, List.filter_cons, hreg]

/-- The scenario of the specification with bare names: `a.png`, `b.txt`,
`c.JPG` give `[a.png, c.JPG]`. -/
theorem scan_scenario :
    scanEntries [] [⟨"a.png", true⟩, ⟨"b.txt", true⟩, ⟨"c.JPG", true⟩] =
      .ok ["a.png", "c.JPG"] := rfl

theorem not_mem_specScan (entries : List DirectoryEntry) (p : String)
    (h : specIsImage p = false) : p ∉ specScan entries := by
  intro hmem
  unfold specScan at hmem
  obtain ⟨e, he, hp⟩ := List.mem_map.mp hmem
  have hf := (List.mem_filter.mp he).2
  simp only [Bool.and_eq_true] at hf
  rw [hp, h] at hf
  exact absurd hf.2 (by decide)

/-- C5: for every prior state and every directory whose traversal completes
without error and delivers regular files under paths that carry a `.` or a
`/` (as every path `entry.path().string()` built from the directory name
does) and are shorter than `2 ^ 64` characters, `loadImagesFromDirectory`
returns with `photoFiles` equal to the paths of the regular-file entries
whose extension, lowercased, is `jpg`, `jpeg` or `png`, in traversal order,
none dropped, added or merged; it returns true exactly when that list is
non-empty; `isImageFile` returns for each regular file what the extension
rule says, so false for a path with no extension or another extension, and
no such path is in `photoFiles`. -/
theorem load_photoFiles_exact (s : Application) (directory : String)
    (fs : FileSystem) (io : ImageService)
    (hdone : (fs directory).throws = false)
    (hshape : ∀ e ∈ (fs directory).entries, e.is_regular_file = true →
      e.path.toList.length < SIZE_MODULUS ∧
      ('.' ∈ e.path.toList ∨ '/' ∈ e.path.toList)) :
    ∃ ret s1, loadImagesFromDirectory s directory fs io = .ok (ret, s1) ∧
      s1.photoFiles =
        ((fs directory).entries.filter
          (fun e => e.is_regular_file && specIsImage e.path)).map (fun e => e.path) ∧
      (ret = true ↔ s1.photoFiles ≠ []) ∧
      (∀ e ∈ (fs directory).entries, e.is_regular_file = true →
        isImageFile e.path = .ok (specIsImage e.path)) ∧
      (∀ p, specIsImage p = false → p ∉ s1.photoFiles) := by
  obtain ⟨files, hscan, hfail, hgood⟩ := load_spec s directory fs io
  have h := scanEntries_eq_specScan (fs directory).entries [] hshape
  rw [hscan] at h
  cases h
  have hrule : ∀ e ∈ (fs directory).entries, e.is_regular_file = true →
      isImageFile e.path = .ok (specIsImage e.path) := fun e he hreg =>
    isImageFile_eq_spec e.path (hshape e he hreg).1 (hshape e he hreg).2
  by_cases hc : [] ++ specScan (fs directory).entries = []
  · refine ⟨false, _, hfail (Or.inr hc), ?_, ?_, hrule, ?_⟩
    · rfl
    · simp only [Bool.false_eq_true, false_iff, not_not]
      exact hc
    · intro p hp
      exact not_mem_specScan _ p hp
  · obtain ⟨s1, h1, hf, -⟩ := hgood hdone hc
    refine ⟨true, s1, h1, ?_, ?_, hrule, ?_⟩
    · rw [hf]; rfl
    · rw [hf]
      exact ⟨fun _ => hc, fun _ => rfl⟩
    · intro p hp
      rw [hf]
      exact not_mem_specScan _ p hp

/-- Witness for C5: the directory holding `a.png`, `b.txt` and `c.JPG` gives
`[a.png, c.JPG]`, each path under its directory name. -/
theorem load_photoFiles_exact_witness :
    ∃ ret s1, loadImagesFromDirectory Application.new "d" photoDirectory decodeOk =
        .ok (ret, s1) ∧
      s1.photoFiles = ["d/a.png", "d/c.JPG"] ∧ isImageFile "d/b.txt" = .ok false := by
  obtain ⟨ret, s1, hload, hfiles, -, hrule, -⟩ :=
    load_photoFiles_exact Application.new "d" photoDirectory decodeOk rfl (by
      intro e he _
      simp only [photoDirectory, List.mem_cons, List.mem_singleton, List.not_mem_nil,
        or_false] at he
      rcases he with rfl | rfl | rfl <;> exact ⟨by decide, by decide⟩)
  refine ⟨ret, s1, hload, ?_, ?_⟩
  · rw [hfiles]; decide
  · exact hrule ⟨"d/b.txt", true⟩ (by simp [photoDirectory]) rfl

end PhotoDisplay
